import Mathlib

/-!
Shallow embedding of the inventory-simulation repository
(`src/model.py` and `src/optim.py`).

Numeric values are modelled as exact rationals.  Randomness is modelled by
explicit streams of draws: `np.random.exponential(scale)` is `scale * e`
for a raw standard-exponential draw `e` (support `[0, ∞)`),
`np.random.uniform(lo, hi)` is `lo + (hi - lo) * u` for a raw unit draw
`u ∈ [0, 1)`, and `np.random.choice(DEMAND_SIZES, p=DEMAND_PROB)` is an
index draw into `DEMAND_SIZES`.  The simpy event loop is modelled by an
explicit pending-event queue ordered by (due time, sequence number), which
is simpy's (time, eid) ordering for timeout events of equal priority; the
process-initialisation indirection of `env.process` (an URGENT event at the
current instant) is coalesced into the spawning step, which is observably
equivalent at the granularity of this model since the coalesced segments
touch disjoint state and run at the same simulated time.
`env.run(until)` fires exactly the pending events with due time strictly
below the horizon (at the horizon, simpy's URGENT stop event pre-empts
NORMAL timeouts).  The event loop carries explicit fuel (a bound on the
number of events processed); every claim below is either invariant in the
fuel or instantiated with enough fuel to drain the queue.
-/

namespace InventorySim

/-! ### Simulation constants (model.py lines 6-15) -/

def MEAN_IAT : ℚ := 1/10

def DEMAND_SIZES : List ℚ := [1, 2, 3, 4]

def DEMAND_PROB : List ℚ := [1/6, 1/3, 1/3, 1/6]

def START_INVENTORY : ℚ := 60

def COST_ORDER_SETUP : ℚ := 32

def COST_ORDER_PER_ITEM : ℚ := 3

def COST_BACKLOG_PER_ITEM : ℚ := 5

def COST_HOLDING_PER_ITEM : ℚ := 1

def SIM_LENGTH : ℚ := 120

/-- Raw random draws backing one simulation run.  `expRaw` are standard
exponential draws (so an inter-arrival time is `MEAN_IAT * expRaw n`),
`sizeIdx` are categorical indices into `DEMAND_SIZES` (the draw of
`np.random.choice(DEMAND_SIZES, p=DEMAND_PROB)`), and `unifRaw` are unit
interval draws (so `np.random.uniform(lo, hi)` is `lo + (hi - lo) * u`). -/
structure Streams where
  expRaw : ℕ → ℚ
  sizeIdx : ℕ → Fin 4
  unifRaw : ℕ → ℚ

/-- Value of `np.random.uniform(lo, hi)` for the raw unit draw `u`. -/
def uniform (lo hi u : ℚ) : ℚ := lo + (hi - lo) * u

/-! ### InventorySystem state (model.py lines 17-33) -/

/-- Fields of the `InventorySystem` class, as set in `__init__`. -/
structure InventorySystem where
  reorder_point : ℚ
  order_size : ℚ
  level : ℚ
  last_change : ℚ
  ordering_cost : ℚ
  shortage_cost : ℚ
  holding_cost : ℚ
  history : List (ℚ × ℚ)
deriving DecidableEq

/-- The `__init__` field initialisation (model.py lines 22-30). -/
def initInv (reorder_point order_size : ℚ) : InventorySystem :=
  { reorder_point := reorder_point
    order_size := order_size
    level := START_INVENTORY
    last_change := 0
    ordering_cost := 0
    shortage_cost := 0
    holding_cost := 0
    history := [(0, START_INVENTORY)] }

/-- `InventorySystem.update_cost` (model.py lines 62-76): accrue shortage
cost at rate `abs(level) * COST_BACKLOG_PER_ITEM` when `level <= 0`, else
holding cost at rate `level * COST_HOLDING_PER_ITEM`, over the interval
since `last_change`. -/
def update_cost (now : ℚ) (inv : InventorySystem) : InventorySystem :=
  if inv.level ≤ 0 then
    { inv with shortage_cost :=
        inv.shortage_cost + |inv.level| * COST_BACKLOG_PER_ITEM * (now - inv.last_change) }
  else
    { inv with holding_cost :=
        inv.holding_cost + inv.level * COST_HOLDING_PER_ITEM * (now - inv.last_change) }

/-- Body of a demand arrival (model.py lines 86-90): update costs, then
decrement `level` by the drawn size, record `last_change` and append the
new level to `history`. -/
def demand_update (now size : ℚ) (inv : InventorySystem) : InventorySystem :=
  let i1 := update_cost now inv
  { i1 with level := i1.level - size
            last_change := now
            history := i1.history ++ [(now, i1.level - size)] }

/-- Body of an order arrival (model.py lines 43-47): update costs, then
increment `level` by the ordered units, record `last_change` and append the
new level to `history`. -/
def order_update (now units : ℚ) (inv : InventorySystem) : InventorySystem :=
  let i1 := update_cost now inv
  { i1 with level := i1.level + units
            last_change := now
            history := i1.history ++ [(now, i1.level + units)] }

/-! ### Event queue (the simpy scheduler) -/

/-- A pending resumption: the review process's next check, a demand
arrival carrying its pre-drawn size, or an order arrival carrying its
units. -/
inductive PEvent where
  | review : PEvent
  | demandArrive : ℚ → PEvent
  | orderArrive : ℚ → PEvent
deriving DecidableEq

/-- A scheduled event: due time, scheduling sequence number (simpy's event
id, which breaks ties between events due at the same instant), payload. -/
structure Ev where
  due : ℚ
  seq : ℕ
  pe : PEvent
deriving DecidableEq

/-- simpy's queue order for equal-priority timeouts: by due time, ties by
event id. -/
def evLE (a b : Ev) : Prop :=
  a.due < b.due ∨ (a.due = b.due ∧ a.seq ≤ b.seq)

instance : DecidableRel evLE := fun a b =>
  inferInstanceAs (Decidable (a.due < b.due ∨ (a.due = b.due ∧ a.seq ≤ b.seq)))

instance : IsTotal Ev evLE := ⟨by
  intro a b
  rcases lt_trichotomy a.due b.due with h | h | h
  · exact Or.inl (Or.inl h)
  · rcases le_total a.seq b.seq with hs | hs
    · exact Or.inl (Or.inr ⟨h, hs⟩)
    · exact Or.inr (Or.inr ⟨h.symm, hs⟩)
  · exact Or.inr (Or.inl h)⟩

instance : IsTrans Ev evLE := ⟨by
  intro a b c hab hbc
  rcases hab with h1 | ⟨h1, h1s⟩ <;> rcases hbc with h2 | ⟨h2, h2s⟩
  · exact Or.inl (h1.trans h2)
  · exact Or.inl (h2 ▸ h1)
  · exact Or.inl (h1 ▸ h2)
  · exact Or.inr ⟨h1.trans h2, h1s.trans h2s⟩⟩

/-- The whole state of one simulation run: the inventory object, the
simulated clock, the pending-event queue (kept sorted by `evLE`), the next
event id and the positions reached in each random stream. -/
structure SimState where
  inv : InventorySystem
  now : ℚ
  queue : List Ev
  nextSeq : ℕ
  nExp : ℕ
  nSize : ℕ
  nUnif : ℕ
deriving DecidableEq

/-- Schedule an event at absolute time `due` (a `yield env.timeout` whose
wait ends at `due`). -/
def schedule (due : ℚ) (pe : PEvent) (s : SimState) : SimState :=
  { s with queue := List.orderedInsert evLE ⟨due, s.nextSeq, pe⟩ s.queue
           nextSeq := s.nextSeq + 1 }

/-- One iteration of the `demands` process head (model.py lines 82-85):
draw the next inter-arrival time and demand size, then schedule the
arrival that far in the future. -/
def drawDemand (σ : Streams) (s : SimState) : SimState :=
  let iat := MEAN_IAT * σ.expRaw s.nExp
  let size := DEMAND_SIZES.get (σ.sizeIdx s.nSize)
  schedule (s.now + iat) (.demandArrive size)
    { s with nExp := s.nExp + 1, nSize := s.nSize + 1 }

/-- The placement half of `place_order` (model.py lines 35-42): book
`COST_ORDER_SETUP + units * COST_ORDER_PER_ITEM` into `ordering_cost`
immediately, draw the lead time `np.random.uniform(.5, 1.0)`, and schedule
the arrival after the lead time.  The arrival half is `order_update`. -/
def place_order (σ : Streams) (units : ℚ) (s : SimState) : SimState :=
  let s1 := { s with inv := { s.inv with ordering_cost :=
      s.inv.ordering_cost + (COST_ORDER_SETUP + units * COST_ORDER_PER_ITEM) } }
  let lead := uniform (1/2) 1 (σ.unifRaw s.nUnif)
  schedule (s1.now + lead) (.orderArrive units) { s1 with nUnif := s1.nUnif + 1 }

/-- One iteration of the `review_inventory` loop (model.py lines 52-60):
place an order for `order_size + reorder_point - level` units when
`level <= reorder_point`, then wait 1.0 time units. -/
def handleReview (σ : Streams) (s : SimState) : SimState :=
  let s1 := if s.inv.level ≤ s.inv.reorder_point then
      place_order σ (s.inv.order_size + s.inv.reorder_point - s.inv.level) s
    else s
  schedule (s1.now + 1) .review s1

/-- Resume the activity owning a fired event. -/
def dispatch (σ : Streams) (s : SimState) : PEvent → SimState
  | .review => handleReview σ s
  | .demandArrive size => drawDemand σ { s with inv := demand_update s.now size s.inv }
  | .orderArrive units => { s with inv := order_update s.now units s.inv }

/-- Pop the earliest pending event if it is due strictly before the
horizon, advance the clock to it and run its handler; otherwise the run is
over (`none`). -/
def stepSim (σ : Streams) (horizon : ℚ) (s : SimState) : Option SimState :=
  match s.queue with
  | [] => none
  | e :: rest =>
    if e.due < horizon then
      some (dispatch σ { s with queue := rest, now := e.due } e.pe)
    else none

/-- The scheduler loop of `env.run(SIM_LENGTH)`, with explicit fuel
bounding the number of events processed. -/
def runSim (σ : Streams) (horizon : ℚ) : ℕ → SimState → SimState
  | 0, s => s
  | fuel + 1, s =>
    match stepSim σ horizon s with
    | none => s
    | some s1 => runSim σ horizon fuel s1

/-- State just after `InventorySystem.__init__` registers its fields,
before either process body has run. -/
def initState (reorder_point order_size : ℚ) : SimState :=
  { inv := initInv reorder_point order_size
    now := 0, queue := [], nextSeq := 0, nExp := 0, nSize := 0, nUnif := 0 }

/-- State once the two processes launched by `__init__` have started at
time 0: the review body runs (possibly placing a first order) and the
demand process draws and schedules its first arrival. -/
def initSim (σ : Streams) (reorder_point order_size : ℚ) : SimState :=
  drawDemand σ (handleReview σ (initState reorder_point order_size))

/-! ### run (model.py lines 92-125) -/

/-- A raised Python `ValueError` with its message. -/
inductive PyError where
  | valueError : String → PyError
deriving DecidableEq

instance {ε α : Type} [DecidableEq ε] [DecidableEq α] :
    DecidableEq (Except ε α) := fun a b =>
  match a, b with
  | .error e, .error f => decidable_of_iff (e = f) (by simp)
  | .ok x, .ok y => decidable_of_iff (x = y) (by simp)
  | .error _, .ok _ => isFalse (by simp)
  | .ok _, .error _ => isFalse (by simp)

/-- The result dictionary returned by `run` (model.py lines 117-122). -/
structure ExperimentResult where
  reorder_point : ℚ
  order_size : ℚ
  total_cost : ℚ
  ordering_cost : ℚ
  holding_cost : ℚ
  shortage_cost : ℚ
deriving DecidableEq

/-- Python's `round(x, 1)`, modelled as rounding `10 * x` to the nearest
integer.  (Python breaks exact ties to even where this rounds half up; no
claim below depends on tie behaviour.) -/
def round1 (x : ℚ) : ℚ := (round (10 * x) : ℤ) / 10

/-- Final simulation state of a run: set up the environment and the
inventory system, then drive the scheduler to the horizon. -/
def runFinal (σ : Streams) (fuel : ℕ) (sim_length reorder_point order_size : ℚ) :
    SimState :=
  runSim σ sim_length fuel (initSim σ reorder_point order_size)

/-- `run` (model.py lines 92-125).  The Python function reads the module
constant `SIM_LENGTH` as the horizon; the constant is taken as the
parameter `sim_length` here so that the guard on it is statable (the
repository fixes `sim_length = SIM_LENGTH = 120`).  The signature has no
horizon argument: the positional parameters are `reorder_point` and
`order_size` (followed by `display_chart`, which only controls plotting
and is omitted here). -/
def run (σ : Streams) (fuel : ℕ) (sim_length reorder_point order_size : ℚ) :
    Except PyError ExperimentResult :=
  if sim_length ≤ 0 then
    .error (.valueError "Simulation length must be greater than zero")
  else if order_size < 0 then
    .error (.valueError "Order size must be greater than zero")
  else
    .ok { reorder_point := reorder_point
          order_size := order_size
          total_cost := round1
            (((runFinal σ fuel sim_length reorder_point order_size).inv.ordering_cost +
              (runFinal σ fuel sim_length reorder_point order_size).inv.holding_cost +
              (runFinal σ fuel sim_length reorder_point order_size).inv.shortage_cost) /
              sim_length)
          ordering_cost := round1
            ((runFinal σ fuel sim_length reorder_point order_size).inv.ordering_cost /
              sim_length)
          holding_cost := round1
            ((runFinal σ fuel sim_length reorder_point order_size).inv.holding_cost /
              sim_length)
          shortage_cost := round1
            ((runFinal σ fuel sim_length reorder_point order_size).inv.shortage_cost /
              sim_length) }

/-! ### run_experiments (model.py lines 146-172) -/

/-- A Python sequence argument: the code is handed either a proper `list`
of candidates or some other sized sequence such as a `tuple` (which
`len` and `itertools.product` treat identically). -/
inductive PySeq where
  | pylist : List ℚ → PySeq
  | pytuple : List ℚ → PySeq
deriving DecidableEq

/-- The elements a sequence yields when iterated. -/
def PySeq.elems : PySeq → List ℚ
  | .pylist xs => xs
  | .pytuple xs => xs

/-- Whether the value is a proper Python `list`. -/
def PySeq.isList : PySeq → Bool
  | .pylist _ => true
  | .pytuple _ => false

/-- The inner loop of `run_experiments`: run each design point in order,
propagating any exception raised by `run`; `k` counts completed iterations
(`iter_count`), indexing the per-replication random streams. -/
def runList (σfam : ℕ → Streams) (fuel : ℕ) :
    ℕ → List (ℚ × ℚ) → Except PyError (List ExperimentResult)
  | _, [] => .ok []
  | k, p :: ps =>
    match run (σfam k) fuel SIM_LENGTH p.1 p.2 with
    | .error e => .error e
    | .ok r =>
      match runList σfam fuel (k + 1) ps with
      | .error e => .error e
      | .ok rs => .ok (r :: rs)

/-- `run_experiments` (model.py lines 146-172): validate `num_rep`, then
iterate `itertools.product(reorder_points, order_sizes)` with `num_rep`
replications of each design point, collecting the result dictionaries.
(The progress `print` every 100 replications is output only and is
omitted.)  No validation of the two candidate collections is performed:
their elements are iterated whatever sequence type carries them. -/
def run_experiments (σfam : ℕ → Streams) (fuel : ℕ)
    (reorder_points order_sizes : PySeq) (num_rep : ℤ) :
    Except PyError (List ExperimentResult) :=
  if num_rep ≤ 0 then
    .error (.valueError "Number of replications must be greater than zero")
  else
    let pairs := reorder_points.elems.flatMap fun i => order_sizes.elems.map fun j => (i, j)
    runList σfam fuel 0 (pairs.flatMap fun p => List.replicate num_rep.toNat p)

/-! ### LocalSearch (optim.py) -/

def xbounds : ℚ × ℚ := (0, 100)

def ybounds : ℚ × ℚ := (5, 100)

/-- `LocalSearch.neighbor` (optim.py lines 34-40): perturb each coordinate
by a `random.uniform(-20, 20)` draw (`d1`, `d2` are the drawn offsets),
then clamp into the boxes `xbounds` and `ybounds`. -/
def neighbor (start : ℚ × ℚ) (d1 d2 : ℚ) : ℚ × ℚ :=
  let x := start.1 + d1
  let y := start.2 + d2
  (max (min x xbounds.2) xbounds.1, max (min y ybounds.2) ybounds.1)

/-- The search's exposed attributes: `path` (accepted points, beginning
with the start point) and `cost` (their averaged total costs). -/
structure LocalSearch where
  path : List (ℚ × ℚ)
  cost : List ℚ
deriving DecidableEq

/-- The evaluation list `[model.run(120, p[0], p[1])['total_cost'] for j
in range(runs)]` (optim.py lines 17 and 25).  `model.run`'s positional
parameters are `(reorder_point, order_size, display_chart)`, so the call
binds `reorder_point := 120`, `order_size := p.1` and passes `p.2` as
`display_chart` (which never compares equal to `True` for the chart branch
unless `p.2 = 1`, and in any case only controls plotting); the run's
horizon is the module constant `SIM_LENGTH`. -/
def lsVals (σrow : ℕ → Streams) (fuel : ℕ) (p : ℚ × ℚ) :
    ℕ → Except PyError (List ℚ)
  | 0 => .ok []
  | j + 1 =>
    match lsVals σrow fuel p j with
    | .error e => .error e
    | .ok vs =>
      match run (σrow j) fuel SIM_LENGTH 120 p.1 with
      | .error e => .error e
      | .ok r => .ok (vs ++ [r.total_cost])

/-- `np.mean` of a list of rationals. -/
def npMean (l : List ℚ) : ℚ := l.sum / l.length

/-- Average of `runs` fresh replications at the point `p`. -/
def lsEval (σrow : ℕ → Streams) (fuel runs : ℕ) (p : ℚ × ℚ) : Except PyError ℚ :=
  match lsVals σrow fuel p runs with
  | .error e => .error e
  | .ok vs => .ok (npMean vs)

/-- The `for i in range(1, n)` loop of `LocalSearch.__init__` (optim.py
lines 22-32): generate a neighbor of the current point, evaluate it, and
accept it (append to `path` and `cost`, update `best` and the current
point) exactly when its averaged cost is strictly below `best`. -/
def lsGo (σfam : ℕ → ℕ → Streams) (perturb : ℕ → ℚ × ℚ) (fuel runs : ℕ) :
    ℕ → ℕ → ℚ × ℚ → ℚ → LocalSearch → Except PyError LocalSearch
  | 0, _, _, _, acc => .ok acc
  | steps + 1, i, cur, best, acc =>
    let next := neighbor cur (perturb i).1 (perturb i).2
    match lsEval (σfam i) fuel runs next with
    | .error e => .error e
    | .ok val =>
      if val < best then
        lsGo σfam perturb fuel runs steps (i + 1) next val
          { path := acc.path ++ [next], cost := acc.cost ++ [val] }
      else
        lsGo σfam perturb fuel runs steps (i + 1) cur best acc

/-- `LocalSearch.__init__` (optim.py lines 13-32): evaluate the start
point over `runs` replications, seed `path`/`cost` with it, then perform
`n - 1` search steps.  `σfam i j` is the random stream of replication `j`
of evaluation step `i`; `perturb i` are the two `random.uniform(-20, 20)`
draws of step `i`. -/
def LocalSearch.init (σfam : ℕ → ℕ → Streams) (perturb : ℕ → ℚ × ℚ)
    (fuel : ℕ) (start : ℚ × ℚ) (n runs : ℕ) : Except PyError LocalSearch :=
  match lsEval (σfam 0) fuel runs start with
  | .error e => .error e
  | .ok best =>
    lsGo σfam perturb fuel runs (n - 1) 1 start best { path := [start], cost := [best] }

/-! ### Concrete streams used to exercise the model -/

/-- A concrete stream: every exponential draw is huge (the first demand
falls far beyond the horizon), every categorical draw picks the first
size, every unit draw is 1/2 (lead times of 3/4). -/
def demoStreams : Streams :=
  { expRaw := fun _ => 100000, sizeIdx := fun _ => 0, unifRaw := fun _ => 1/2 }

def demoFam : ℕ → Streams := fun _ => demoStreams

def demoFam2 : ℕ → ℕ → Streams := fun _ _ => demoStreams

def demoPerturb : ℕ → ℚ × ℚ := fun _ => (0, 0)

/-! ### Invariant predicates used by the proofs -/

/-- The scheduler bookkeeping is well formed: the pending queue is sorted
in firing order and no pending event is due in the past. -/
def QueueOK (s : SimState) : Prop :=
  List.Sorted evLE s.queue ∧ ∀ e ∈ s.queue, s.now ≤ e.due

/-- Run-time invariant of the inventory object at clock time `now`: the
last level change is not in the future, the policy's order size is
non-negative and every cost accumulator is non-negative. -/
def InvOK (now : ℚ) (inv : InventorySystem) : Prop :=
  inv.last_change ≤ now ∧ 0 ≤ inv.order_size ∧
    0 ≤ inv.ordering_cost ∧ 0 ≤ inv.holding_cost ∧ 0 ≤ inv.shortage_cost

/-- Run-time invariant of a whole simulation state. -/
def StateOK (s : SimState) : Prop :=
  QueueOK s ∧ InvOK s.now s.inv

/-- The raw draws respect the supports of the distributions they model:
standard-exponential draws are non-negative and unit draws lie in
`[0, 1)`. -/
def StreamsOK (σ : Streams) : Prop :=
  (∀ n, 0 ≤ σ.expRaw n) ∧ ∀ n, 0 ≤ σ.unifRaw n ∧ σ.unifRaw n < 1

/-! ## Claim theorems -/

/-- Claim C9: for every input point and every pair of perturbation draws,
the candidate returned by `LocalSearch.neighbor` has its first coordinate
(reorder point) in `[0, 100]` and its second coordinate (order size) in
`[5, 100]`, even when the unclamped perturbed coordinates fall outside
those ranges. -/
theorem neighbor_within_bounds (start : ℚ × ℚ) (d1 d2 : ℚ) :
    0 ≤ (neighbor start d1 d2).1 ∧ (neighbor start d1 d2).1 ≤ 100 ∧
      5 ≤ (neighbor start d1 d2).2 ∧ (neighbor start d1 d2).2 ≤ 100 := by
  simp only [neighbor, xbounds, ybounds]
  exact ⟨le_max_right _ _,
    max_le (min_le_right _ _) (by norm_num),
    le_max_right _ _,
    max_le (min_le_right _ _) (by norm_num)⟩

/-- Claim C5: before every mutation of the inventory level — demand
arrivals (`demand_update`) and order arrivals (`order_update`), the only
places the level changes — the cost update adds exactly
`abs(level) * COST_BACKLOG_PER_ITEM * (now - last_change)` to the shortage
cost when `level ≤ 0`, and exactly
`level * COST_HOLDING_PER_ITEM * (now - last_change)` to the holding cost
when `level > 0`, computed from the pre-mutation `level` and
`last_change`; only then is the level reassigned and `last_change`
recorded. -/
theorem update_cost_precedes_every_level_mutation
    (now size units : ℚ) (inv : InventorySystem) :
    ((demand_update now size inv).shortage_cost = inv.shortage_cost +
        (if inv.level ≤ 0 then
          |inv.level| * COST_BACKLOG_PER_ITEM * (now - inv.last_change) else 0)) ∧
    ((demand_update now size inv).holding_cost = inv.holding_cost +
        (if inv.level ≤ 0 then 0 else
          inv.level * COST_HOLDING_PER_ITEM * (now - inv.last_change))) ∧
    (demand_update now size inv).level = inv.level - size ∧
    (demand_update now size inv).last_change = now ∧
    ((order_update now units inv).shortage_cost = inv.shortage_cost +
        (if inv.level ≤ 0 then
          |inv.level| * COST_BACKLOG_PER_ITEM * (now - inv.last_change) else 0)) ∧
    ((order_update now units inv).holding_cost = inv.holding_cost +
        (if inv.level ≤ 0 then 0 else
          inv.level * COST_HOLDING_PER_ITEM * (now - inv.last_change))) ∧
    (order_update now units inv).level = inv.level + units ∧
    (order_update now units inv).last_change = now := by
  by_cases h : inv.level ≤ 0 <;>
    simp [demand_update, order_update, update_cost, h]

/-- Claim C4: `run` fails with a `ValueError` when the simulation horizon
(the module constant `SIM_LENGTH`, modelled as the parameter
`sim_length`) is non-positive, and fails with a `ValueError` when
`order_size` is negative; the equations hold for every stream and for
fuel 0, so the failure is decided before any simulation work is done. -/
theorem run_rejects_invalid_inputs (σ : Streams) (fuel : ℕ)
    (sim_length reorder_point order_size : ℚ) :
    (sim_length ≤ 0 → run σ fuel sim_length reorder_point order_size =
      .error (.valueError "Simulation length must be greater than zero")) ∧
    (order_size < 0 → ∃ msg, run σ fuel sim_length reorder_point order_size =
      .error (.valueError msg)) := by
  constructor
  · intro h
    unfold run
    rw [if_pos h]
  · intro h
    unfold run
    by_cases h1 : sim_length ≤ 0
    · exact ⟨_, by rw [if_pos h1]⟩
    · exact ⟨_, by rw [if_neg h1, if_pos h]⟩

/-- Witness for C4 at concrete inputs: a zero horizon and a negative
order size are both rejected. -/
theorem run_rejects_invalid_inputs_witness :
    (run demoStreams 0 0 25 40 =
      .error (.valueError "Simulation length must be greater than zero")) ∧
    ∃ msg, run demoStreams 0 120 25 (-1) = .error (.valueError msg) :=
  ⟨(run_rejects_invalid_inputs demoStreams 0 0 25 40).1 (by norm_num),
   (run_rejects_invalid_inputs demoStreams 0 120 25 (-1)).2 (by norm_num)⟩

/-- Claim C10: for every reorder point (and every stream and fuel),
calling `run` with `order_size = 0` does not fail: the guard rejects only
strictly negative order sizes, so a zero order size proceeds past
validation into the simulation and a result record is returned. -/
theorem run_accepts_zero_order_size (σ : Streams) (fuel : ℕ) (reorder_point : ℚ) :
    ∃ r, run σ fuel SIM_LENGTH reorder_point 0 = .ok r := by
  unfold run
  rw [if_neg (by norm_num [SIM_LENGTH]), if_neg (by norm_num)]
  exact ⟨_, rfl⟩

/-- Claim C3 (counterexample): `run_experiments` performs no validation of
the candidate collections.  Handing it tuples instead of proper lists does
not raise the invalid-input error the claim requires: simulations run and
a result list is returned. -/
theorem run_experiments_accepts_tuple_collections :
    (run_experiments demoFam 0 (.pytuple [20]) (.pytuple [30]) 1).isOk = true ∧
      PySeq.isList (.pytuple [20]) = false := by decide!

/-- Claim C3 (amended): `run_experiments` fails with the invalid-input
`ValueError` whenever `num_rep ≤ 0`, before any simulation is run (the
equation holds for every stream and for fuel 0); the candidate
collections themselves are not validated. -/
theorem run_experiments_rejects_nonpositive_num_rep (σfam : ℕ → Streams)
    (fuel : ℕ) (reorder_points order_sizes : PySeq) (num_rep : ℤ)
    (h : num_rep ≤ 0) :
    run_experiments σfam fuel reorder_points order_sizes num_rep =
      .error (.valueError "Number of replications must be greater than zero") := by
  unfold run_experiments
  rw [if_pos h]

/-- Witness for the amended C3 at a concrete input: zero replications are
rejected. -/
theorem run_experiments_rejects_nonpositive_num_rep_witness :
    run_experiments demoFam 0 (.pylist [20, 25]) (.pylist [30, 40]) 0 =
      .error (.valueError "Number of replications must be greater than zero") :=
  run_experiments_rejects_nonpositive_num_rep demoFam 0
    (.pylist [20, 25]) (.pylist [30, 40]) 0 (by norm_num)

/-- When the horizon is positive and the order size non-negative, `run`
returns a result record carrying exactly the requested policy
parameters. -/
theorem run_ok (σ : Streams) (fuel : ℕ) (sim_length reorder_point order_size : ℚ)
    (h1 : ¬ sim_length ≤ 0) (h2 : ¬ order_size < 0) :
    ∃ r, run σ fuel sim_length reorder_point order_size = .ok r ∧
      r.reorder_point = reorder_point ∧ r.order_size = order_size := by
  unfold run
  rw [if_neg h1, if_neg h2]
  exact ⟨_, rfl, rfl, rfl⟩

/-- The design-point loop succeeds on any list of pairs with non-negative
order sizes and returns one record per pair, in order, each echoing its
generating pair. -/
theorem runList_ok (σfam : ℕ → Streams) (fuel : ℕ) :
    ∀ (ps : List (ℚ × ℚ)) (k : ℕ), (∀ p ∈ ps, 0 ≤ p.2) →
      ∃ rs, runList σfam fuel k ps = .ok rs ∧
        rs.map (fun r => (r.reorder_point, r.order_size)) = ps := by
  intro ps
  induction ps with
  | nil => exact fun k _ => ⟨[], rfl, rfl⟩
  | cons p ps ih =>
    intro k hp
    obtain ⟨r, hr, hrp, hros⟩ :=
      run_ok (σfam k) fuel SIM_LENGTH p.1 p.2 (by norm_num [SIM_LENGTH])
        (not_lt.mpr (hp p (List.mem_cons_self p ps)))
    obtain ⟨rs, hrs, hmap⟩ := ih (k + 1) fun q hq => hp q (List.mem_cons_of_mem p hq)
    refine ⟨r :: rs, ?_, ?_⟩
    · simp only [runList]
      rw [hr, hrs]
    · simp [hmap, hrp, hros]

/-- Claim C2 (counterexample): with `reorder_points = [20, 25]`,
`order_sizes = [30, 40]` and `num_rep = 2`, `run_experiments` returns 8
records (2 reorder points × 2 order sizes × 2 replications), not the 4
the claim states. -/
theorem run_experiments_count_is_not_four :
    (run_experiments demoFam 0 (.pylist [20, 25]) (.pylist [30, 40]) 2).toOption.map
        List.length = some 8 ∧ (8 : ℕ) ≠ 4 := by decide!

/-- Claim C2 (amended): with `reorder_points = [20, 25]`,
`order_sizes = [30, 40]` and `num_rep = 2`, `run_experiments` returns
exactly 8 `ExperimentResult` records, one per (reorder_point, order_size)
pair per replication in cross-product order, and each record's
`reorder_point` and `order_size` equal those of its generating pair; this
holds for every stream family and fuel. -/
theorem run_experiments_cross_product (σfam : ℕ → Streams) (fuel : ℕ) :
    ∃ rs, run_experiments σfam fuel (.pylist [20, 25]) (.pylist [30, 40]) 2 = .ok rs ∧
      rs.length = 8 ∧
      rs.map (fun r => (r.reorder_point, r.order_size)) =
        [(20, 30), (20, 30), (20, 40), (20, 40),
         (25, 30), (25, 30), (25, 40), (25, 40)] := by
  obtain ⟨rs, hrs, hmap⟩ := runList_ok σfam fuel
    [(20, 30), (20, 30), (20, 40), (20, 40), (25, 30), (25, 30), (25, 40), (25, 40)]
    0 (by norm_num)
  refine ⟨rs, ?_, ?_, hmap⟩
  · unfold run_experiments
    rw [if_neg (by norm_num)]
    exact hrs
  · simpa using congrArg List.length hmap

/-- Claim C6: `place_order` books
`COST_ORDER_SETUP + units * COST_ORDER_PER_ITEM` into the accumulated
ordering cost immediately at placement — before the lead time elapses,
and independently of whether the scheduled arrival ever fires within the
horizon, since the arrival is a separate, strictly later queue entry —
draws its lead time `uniform(0.5, 1.0)` (which lies in `[1/2, 1)` for any
raw unit draw in `[0, 1)`), and schedules the arrival at `now + lead`;
upon arrival, `order_update` first applies the accrued holding/shortage
cost for the elapsed interval via `update_cost` on the pre-arrival state
and only then increments the level by `units` and records
`last_change`. -/
theorem place_order_contract (σ : Streams) (units : ℚ) (s : SimState)
    (inv : InventorySystem) (now : ℚ)
    (hu0 : 0 ≤ σ.unifRaw s.nUnif) (hu1 : σ.unifRaw s.nUnif < 1) :
    ((place_order σ units s).inv.ordering_cost =
        s.inv.ordering_cost + (COST_ORDER_SETUP + units * COST_ORDER_PER_ITEM)) ∧
    ((place_order σ units s).inv.level = s.inv.level ∧
      (place_order σ units s).inv.holding_cost = s.inv.holding_cost ∧
      (place_order σ units s).inv.shortage_cost = s.inv.shortage_cost) ∧
    (1/2 ≤ uniform (1/2) 1 (σ.unifRaw s.nUnif) ∧
      uniform (1/2) 1 (σ.unifRaw s.nUnif) < 1) ∧
    ((place_order σ units s).queue = List.orderedInsert evLE
        ⟨s.now + uniform (1/2) 1 (σ.unifRaw s.nUnif), s.nextSeq, .orderArrive units⟩
        s.queue ∧
      s.now < s.now + uniform (1/2) 1 (σ.unifRaw s.nUnif)) ∧
    ((order_update now units inv).holding_cost = (update_cost now inv).holding_cost ∧
      (order_update now units inv).shortage_cost = (update_cost now inv).shortage_cost ∧
      (order_update now units inv).level = inv.level + units ∧
      (order_update now units inv).last_change = now) := by
  have hlead1 : 1/2 ≤ uniform (1/2) 1 (σ.unifRaw s.nUnif) := by
    unfold uniform; nlinarith
  have hlead2 : uniform (1/2) 1 (σ.unifRaw s.nUnif) < 1 := by
    unfold uniform; nlinarith
  refine ⟨rfl, ⟨rfl, rfl, rfl⟩, ⟨hlead1, hlead2⟩, ⟨rfl, by linarith⟩, ?_⟩
  by_cases h : inv.level ≤ 0 <;> simp [order_update, update_cost, h]

/-- Witness for C6 at a concrete state: placing the time-0 order of the
`(reorder_point, order_size) = (120, 25)` run books `32 + 85 * 3` at
placement time. -/
theorem place_order_contract_witness :
    (place_order demoStreams 85 (initState 120 25)).inv.ordering_cost =
      (initState 120 25).inv.ordering_cost +
        (COST_ORDER_SETUP + 85 * COST_ORDER_PER_ITEM) :=
  (place_order_contract demoStreams 85 (initState 120 25) (initInv 120 25) 0
    (by norm_num [demoStreams, initState])
    (by norm_num [demoStreams, initState])).1

/-- Appending a value strictly below the last entry extends a strictly
decreasing chain. -/
theorem chain_concat_lt {l : List ℚ} {b v : ℚ}
    (hc : List.Chain' (fun a c => c < a) l) (hl : l.getLast? = some b)
    (hv : v < b) : List.Chain' (fun a c => c < a) (l ++ [v]) := by
  rw [List.chain'_append]
  refine ⟨hc, List.chain'_singleton v, ?_⟩
  intro x hx y hy
  rw [hl, Option.mem_some_iff] at hx
  simp only [List.head?_cons, Option.mem_some_iff] at hy
  rw [← hx, ← hy]
  exact hv

/-- Through the search loop, the recorded cost list stays strictly
decreasing provided it ends in the current best value: a candidate is
appended only when its averaged cost is strictly below the best. -/
theorem lsGo_chain (σfam : ℕ → ℕ → Streams) (perturb : ℕ → ℚ × ℚ)
    (fuel runs : ℕ) :
    ∀ (steps i : ℕ) (cur : ℚ × ℚ) (best : ℚ) (acc out : LocalSearch),
      List.Chain' (fun a b => b < a) acc.cost →
      acc.cost.getLast? = some best →
      lsGo σfam perturb fuel runs steps i cur best acc = .ok out →
      List.Chain' (fun a b => b < a) out.cost := by
  intro steps
  induction steps with
  | zero =>
    intro i cur best acc out hc _ hgo
    simp only [lsGo] at hgo
    cases hgo
    exact hc
  | succ m ih =>
    intro i cur best acc out hc hl hgo
    simp only [lsGo] at hgo
    split at hgo
    · cases hgo
    · rename_i val heval
      split at hgo
      · rename_i hlt
        exact ih (i + 1) _ val _ out (chain_concat_lt hc hl hlt)
          (List.getLast?_concat _) hgo
      · exact ih (i + 1) cur best acc out hc hl hgo

/-- Claim C8: the `cost` sequence exposed by `LocalSearch` is strictly
decreasing along successive entries (hence non-increasing): every entry
appended after the initial one was, at the time of its evaluation,
strictly below the best cost recorded so far, and no non-improving
candidate's cost is ever appended. -/
theorem localSearch_cost_strictly_decreasing (σfam : ℕ → ℕ → Streams)
    (perturb : ℕ → ℚ × ℚ) (fuel : ℕ) (start : ℚ × ℚ) (n runs : ℕ)
    (out : LocalSearch)
    (h : LocalSearch.init σfam perturb fuel start n runs = .ok out) :
    List.Chain' (fun a b => b < a) out.cost := by
  unfold LocalSearch.init at h
  cases heval : lsEval (σfam 0) fuel runs start with
  | error e => rw [heval] at h; cases h
  | ok best =>
    rw [heval] at h
    exact lsGo_chain σfam perturb fuel runs (n - 1) 1 start best
      { path := [start], cost := [best] } out (List.chain'_singleton best)
      rfl h

/-- Witness for C8 at a concrete search (two steps, one replication,
fuel 0): the search succeeds and its `cost` list satisfies the chain
property. -/
theorem localSearch_cost_strictly_decreasing_witness :
    List.Chain' (fun a b => b < a)
      (LocalSearch.mk [(25, 40)] [12/5]).cost :=
  localSearch_cost_strictly_decreasing demoFam2 demoPerturb 0 (25, 40) 2 1
    ⟨[(25, 40)], [12/5]⟩ (by decide!)

theorem evLE_due {a b : Ev} (h : evLE a b) : a.due ≤ b.due := by
  rcases h with h | ⟨h, _⟩
  · exact le_of_lt h
  · exact le_of_eq h

theorem InvOK_mono {now now' : ℚ} {inv : InventorySystem} (h : now ≤ now')
    (hi : InvOK now inv) : InvOK now' inv :=
  ⟨hi.1.trans h, hi.2.1, hi.2.2.1, hi.2.2.2.1, hi.2.2.2.2⟩

/-- A cost update at a time not before the last change keeps both accrual
accumulators non-negative and touches nothing else. -/
theorem update_cost_InvOK {now : ℚ} {inv : InventorySystem}
    (hi : InvOK now inv) : InvOK now (update_cost now inv) := by
  obtain ⟨hlc, hos, ho, hh, hs⟩ := hi
  unfold InvOK update_cost
  split
  · exact ⟨hlc, hos, ho, hh, add_nonneg hs (mul_nonneg
      (mul_nonneg (abs_nonneg _) (by norm_num [COST_BACKLOG_PER_ITEM]))
      (by linarith))⟩
  · rename_i hpos
    exact ⟨hlc, hos, ho, add_nonneg hh (mul_nonneg
      (mul_nonneg (le_of_lt (lt_of_not_le hpos)) (by norm_num [COST_HOLDING_PER_ITEM]))
      (by linarith)), hs⟩

theorem demand_update_InvOK {now size : ℚ} {inv : InventorySystem}
    (hi : InvOK now inv) : InvOK now (demand_update now size inv) := by
  obtain ⟨hlc, hos, ho, hh, hs⟩ := update_cost_InvOK hi
  exact ⟨le_refl now, hos, ho, hh, hs⟩

theorem order_update_InvOK {now units : ℚ} {inv : InventorySystem}
    (hi : InvOK now inv) : InvOK now (order_update now units inv) := by
  obtain ⟨hlc, hos, ho, hh, hs⟩ := update_cost_InvOK hi
  exact ⟨le_refl now, hos, ho, hh, hs⟩

/-- Scheduling an event that is not due in the past preserves the state
invariant. -/
theorem schedule_StateOK {s : SimState} {due : ℚ} {pe : PEvent}
    (h : StateOK s) (hd : s.now ≤ due) : StateOK (schedule due pe s) := by
  obtain ⟨⟨hsort, hmem⟩, hinv⟩ := h
  refine ⟨⟨List.Sorted.orderedInsert _ _ hsort, ?_⟩, hinv⟩
  intro e he
  replace he : e = ⟨due, s.nextSeq, pe⟩ ∨ e ∈ s.queue := by
    simpa [schedule, List.mem_orderedInsert] using he
  show s.now ≤ e.due
  rcases he with rfl | he
  · exact hd
  · exact hmem e he

theorem uniform_lead_nonneg {u : ℚ} (hu : 0 ≤ u) : 0 ≤ uniform (1/2) 1 u := by
  unfold uniform
  nlinarith

theorem place_order_StateOK {σ : Streams} {units : ℚ} {s : SimState}
    (hσ : StreamsOK σ) (h : StateOK s) (hu : 0 ≤ units) :
    StateOK (place_order σ units s) := by
  obtain ⟨hq, hinv⟩ := h
  obtain ⟨hlc, hos, ho, hh, hs⟩ := hinv
  have hcost : 0 ≤ s.inv.ordering_cost +
      (COST_ORDER_SETUP + units * COST_ORDER_PER_ITEM) :=
    add_nonneg ho (add_nonneg (by norm_num [COST_ORDER_SETUP])
      (mul_nonneg hu (by norm_num [COST_ORDER_PER_ITEM])))
  refine schedule_StateOK ⟨⟨hq.1, hq.2⟩, hlc, hos, hcost, hh, hs⟩ ?_
  show s.now ≤ s.now + uniform (1/2) 1 (σ.unifRaw s.nUnif)
  have := uniform_lead_nonneg ((hσ.2 s.nUnif).1)
  linarith

theorem handleReview_StateOK {σ : Streams} {s : SimState}
    (hσ : StreamsOK σ) (h : StateOK s) : StateOK (handleReview σ s) := by
  unfold handleReview
  by_cases hc : s.inv.level ≤ s.inv.reorder_point
  · rw [if_pos hc]
    have hu : 0 ≤ s.inv.order_size + s.inv.reorder_point - s.inv.level := by
      have hos := h.2.2.1
      linarith
    exact schedule_StateOK (place_order_StateOK hσ h hu) (by linarith)
  · rw [if_neg hc]
    exact schedule_StateOK h (by linarith)

theorem drawDemand_StateOK {σ : Streams} {s : SimState}
    (hσ : StreamsOK σ) (h : StateOK s) : StateOK (drawDemand σ s) := by
  refine schedule_StateOK ⟨h.1, h.2⟩ ?_
  have h1 := hσ.1 s.nExp
  have h2 : 0 ≤ MEAN_IAT * σ.expRaw s.nExp :=
    mul_nonneg (by norm_num [MEAN_IAT]) h1
  linarith

theorem dispatch_StateOK {σ : Streams} {s : SimState} (pe : PEvent)
    (hσ : StreamsOK σ) (h : StateOK s) : StateOK (dispatch σ s pe) := by
  cases pe with
  | review => exact handleReview_StateOK hσ h
  | demandArrive size => exact drawDemand_StateOK hσ ⟨h.1, demand_update_InvOK h.2⟩
  | orderArrive units => exact ⟨h.1, order_update_InvOK h.2⟩

theorem stepSim_cons {σ : Streams} {horizon : ℚ} {s : SimState} {e : Ev}
    {rest : List Ev} (hq : s.queue = e :: rest) :
    stepSim σ horizon s = if e.due < horizon then
      some (dispatch σ { s with queue := rest, now := e.due } e.pe)
    else none := by
  unfold stepSim
  rw [hq]

/-- Firing the earliest pending event preserves the state invariant: the
clock only moves forward, the remaining queue stays sorted and future, and
the handler keeps the inventory invariant. -/
theorem stepSim_StateOK {σ : Streams} {horizon : ℚ} {s s1 : SimState}
    (hσ : StreamsOK σ) (h : StateOK s) (hstep : stepSim σ horizon s = some s1) :
    StateOK s1 := by
  cases hq : s.queue with
  | nil =>
    unfold stepSim at hstep
    rw [hq] at hstep
    cases hstep
  | cons e rest =>
    rw [stepSim_cons hq] at hstep
    by_cases hdue : e.due < horizon
    · rw [if_pos hdue] at hstep
      injection hstep with hstep
      subst hstep
      obtain ⟨⟨hsort, hmem⟩, hinv⟩ := h
      rw [hq] at hsort hmem
      have hnow : s.now ≤ e.due := hmem e (List.mem_cons_self e rest)
      refine dispatch_StateOK _ hσ ⟨⟨(List.sorted_cons.mp hsort).2, ?_⟩, ?_⟩
      · intro x hx
        exact evLE_due ((List.sorted_cons.mp hsort).1 x hx)
      · exact InvOK_mono hnow hinv
    · rw [if_neg hdue] at hstep
      cases hstep

theorem runSim_StateOK {σ : Streams} {horizon : ℚ} (hσ : StreamsOK σ) :
    ∀ (fuel : ℕ) (s : SimState), StateOK s → StateOK (runSim σ horizon fuel s) := by
  intro fuel
  induction fuel with
  | zero => exact fun s h => h
  | succ n ih =>
    intro s h
    cases hstep : stepSim σ horizon s with
    | none => simp only [runSim, hstep]; exact h
    | some s1 => simp only [runSim, hstep]; exact ih s1 (stepSim_StateOK hσ h hstep)

theorem initSim_StateOK {σ : Streams} {rp os : ℚ} (hσ : StreamsOK σ)
    (hos : 0 ≤ os) : StateOK (initSim σ rp os) := by
  apply drawDemand_StateOK hσ
  apply handleReview_StateOK hσ
  refine ⟨⟨List.sorted_nil, ?_⟩, le_refl 0, hos, le_refl 0, le_refl 0, le_refl 0⟩
  intro e he
  exact absurd he (List.not_mem_nil e)

theorem round1_nonneg {x : ℚ} (hx : 0 ≤ x) : 0 ≤ round1 x := by
  unfold round1
  apply div_nonneg _ (by norm_num)
  have h : (0 : ℤ) ≤ round (10 * x) := by
    rw [round_eq]
    exact Int.le_floor.mpr (by push_cast; linarith)
  exact_mod_cast h

theorem abs_round1_sub (x : ℚ) : |round1 x - x| ≤ 1/20 := by
  have h := abs_sub_round (10 * x)
  rw [abs_le] at h ⊢
  unfold round1 at *
  constructor <;> linarith [h.1, h.2]

/-- Claim C7: for every successful run (hence a positive horizon and a
non-negative order size) whose raw draws respect their distributions'
supports, the returned average ordering, holding and shortage costs are
each non-negative, and the returned `total_cost` equals the sum of the
three averages up to the tolerance induced by rounding each of the four
averages to one decimal place (4 × 1/20 = 1/5). -/
theorem run_costs_nonneg_and_total_additive (σ : Streams) (fuel : ℕ)
    (sim_length reorder_point order_size : ℚ) (r : ExperimentResult)
    (hσ : StreamsOK σ)
    (h : run σ fuel sim_length reorder_point order_size = .ok r) :
    0 ≤ r.ordering_cost ∧ 0 ≤ r.holding_cost ∧ 0 ≤ r.shortage_cost ∧
      |r.total_cost - (r.ordering_cost + r.holding_cost + r.shortage_cost)| ≤
        1/5 := by
  unfold run at h
  by_cases h1 : sim_length ≤ 0
  · rw [if_pos h1] at h; cases h
  rw [if_neg h1] at h
  by_cases h2 : order_size < 0
  · rw [if_pos h2] at h; cases h
  rw [if_neg h2] at h
  injection h with h
  subst h
  have hsl : (0:ℚ) < sim_length := not_le.mp h1
  have hok : StateOK (runFinal σ fuel sim_length reorder_point order_size) :=
    runSim_StateOK hσ fuel _ (initSim_StateOK hσ (not_lt.mp h2))
  obtain ⟨_, _, ho, hh, hs⟩ := hok.2
  refine ⟨round1_nonneg (div_nonneg ho hsl.le),
    round1_nonneg (div_nonneg hh hsl.le),
    round1_nonneg (div_nonneg hs hsl.le), ?_⟩
  set F := runFinal σ fuel sim_length reorder_point order_size with hF
  have hsplit : (F.inv.ordering_cost + F.inv.holding_cost +
      F.inv.shortage_cost) / sim_length =
      F.inv.ordering_cost / sim_length + F.inv.holding_cost / sim_length +
      F.inv.shortage_cost / sim_length := by ring
  show |round1 ((F.inv.ordering_cost + F.inv.holding_cost +
      F.inv.shortage_cost) / sim_length) -
      (round1 (F.inv.ordering_cost / sim_length) +
       round1 (F.inv.holding_cost / sim_length) +
       round1 (F.inv.shortage_cost / sim_length))| ≤ 1/5
  rw [hsplit]
  have e1 := abs_round1_sub (F.inv.ordering_cost / sim_length)
  have e2 := abs_round1_sub (F.inv.holding_cost / sim_length)
  have e3 := abs_round1_sub (F.inv.shortage_cost / sim_length)
  have e4 := abs_round1_sub (F.inv.ordering_cost / sim_length +
    F.inv.holding_cost / sim_length + F.inv.shortage_cost / sim_length)
  rw [abs_le] at e1 e2 e3 e4 ⊢
  constructor <;> linarith [e1.1, e1.2, e2.1, e2.2, e3.1, e3.2, e4.1, e4.2]

/-- Witness for C7 at a concrete run (fuel 0, reorder point 25, order size
40): the conclusion holds at the returned all-zero averages. -/
theorem run_costs_nonneg_and_total_additive_witness :
    (0:ℚ) ≤ 0 ∧ (0:ℚ) ≤ 0 ∧ (0:ℚ) ≤ 0 ∧ |(0:ℚ) - (0 + 0 + 0)| ≤ 1/5 :=
  run_costs_nonneg_and_total_additive demoStreams 0 SIM_LENGTH 25 40
    ⟨25, 40, 0, 0, 0, 0⟩
    ⟨fun n => by norm_num [demoStreams],
     fun n => ⟨by norm_num [demoStreams], by norm_num [demoStreams]⟩⟩
    (by decide!)

/-- Claim C1 (code evaluated at the failing input): with start `(25, 40)`,
`n = 1`, `runs = 1` and the concrete demo draws, the single `cost` entry
of `LocalSearch` equals the averaged total cost of `run` evaluated with
`reorder_point = 120` and `order_size = 25` — the call
`model.run(120, start[0], start[1])` in optim.py binds the literal 120 to
`run`'s first positional parameter `reorder_point` and the point's first
coordinate to `order_size` — and differs from the value the claim
prescribes, the total cost of `run` with `reorder_point = 25`,
`order_size = 40` under the same draws. -/
theorem localSearch_misroutes_run_arguments :
    ((LocalSearch.init demoFam2 demoPerturb 200 (25, 40) 1 1).toOption.map
        (fun ls => ls.cost) = some [14/5]) ∧
    ((run demoStreams 200 SIM_LENGTH 120 25).toOption.map
        (fun r => r.total_cost) = some (14/5)) ∧
    ((run demoStreams 200 SIM_LENGTH 25 40).toOption.map
        (fun r => r.total_cost) = some 0) ∧
    (14/5 : ℚ) ≠ 0 := by decide!

end InventorySim
